import Mathlib

/-!
Verification of the image-preprocessing operations specified for the
MSLS CO4 preprocessing notebook (`02-preprocessing-EX.ipynb`).  The
notebook's code cells leave each operation as an exercise placeholder
(`mask = ...`, `dst = ...`, `img1_sharp = ...`), so every operation below
is modelled from the specification's contracts and then verified against
the properties the specification states about it.
-/

namespace Preproc

/-- Modelled from the spec: the circular mask generator (missing from the
notebook, whose cell reads `mask = ...`).  Given image dimensions
(height `H`, width `W`), a center `(cx, cy)` and radius `r`, produce an
`H×W` boolean array that is `true` at pixel `(x, y)` exactly when
`(x − cx)² + (y − cy)² ≤ r²`; pixels outside the image are simply not
represented (the circle is clipped to the image bounds). -/
def inCircle (cx cy r : Int) (y x : Nat) : Bool :=
  decide (((x : Int) - cx) ^ 2 + ((y : Int) - cy) ^ 2 ≤ r ^ 2)

def circularMask (H W : Nat) (cx cy r : Int) : List (List Bool) :=
  (List.range H).map fun (y : Nat) =>
    (List.range W).map fun (x : Nat) => inCircle cx cy r y x

/-- Entry lookup in a nested boolean array, with `false` outside. -/
def maskAt (m : List (List Bool)) (y x : Nat) : Bool :=
  (m.getD y []).getD x false

theorem circularMask_length (H W : Nat) (cx cy r : Int) :
    (circularMask H W cx cy r).length = H := by
  simp [circularMask]

theorem circularMask_row_length (H W : Nat) (cx cy r : Int) (y : Nat)
    (hy : y < H) :
    ((circularMask H W cx cy r).getD y []).length = W := by
  unfold circularMask
  rw [List.getD_eq_getElem?_getD, List.getElem?_map, List.getElem?_range hy]
  simp

theorem circularMask_at (H W : Nat) (cx cy r : Int) (y x : Nat)
    (hy : y < H) (hx : x < W) :
    maskAt (circularMask H W cx cy r) y x = inCircle cx cy r y x := by
  simp [maskAt, circularMask, List.getD_eq_getElem?_getD, List.getElem?_map,
    List.getElem?_range, hy, hx]

/-- C1: for every image size `(H, W)`, center `(cx, cy)` and radius `r`, the
circular mask generator returns a boolean `H×W` array whose entry at pixel
`(x, y)` is `true` if and only if `(x−cx)² + (y−cy)² ≤ r²` (boundary equality
included); for `r = 0` exactly the single pixel `(cx, cy)` is `true` when it
lies in bounds, and an out-of-bounds circle is not an error: the mask is the
clipped `H×W` array. -/
theorem claim_C1 (H W : Nat) (cx cy r : Int) (y x : Nat)
    (hy : y < H) (hx : x < W) :
    (circularMask H W cx cy r).length = H ∧
    ((circularMask H W cx cy r).getD y []).length = W ∧
    (maskAt (circularMask H W cx cy r) y x = true ↔
      ((x : Int) - cx) ^ 2 + ((y : Int) - cy) ^ 2 ≤ r ^ 2) ∧
    (r = 0 → (maskAt (circularMask H W cx cy r) y x = true ↔
      (x : Int) = cx ∧ (y : Int) = cy)) := by
  refine ⟨circularMask_length H W cx cy r, circularMask_row_length H W cx cy r y hy,
    ?_, ?_⟩
  · rw [circularMask_at H W cx cy r y x hy hx]
    simp [inCircle]
  · intro hr
    subst hr
    rw [circularMask_at H W cx cy 0 y x hy hx]
    simp only [inCircle, decide_eq_true_eq]
    constructor
    · intro h
      have hx0 : ((x : Int) - cx) ^ 2 = 0 := by
        nlinarith [sq_nonneg ((x : Int) - cx), sq_nonneg ((y : Int) - cy)]
      have hy0 : ((y : Int) - cy) ^ 2 = 0 := by
        nlinarith [sq_nonneg ((x : Int) - cx), sq_nonneg ((y : Int) - cy)]
      exact ⟨sub_eq_zero.mp ((pow_eq_zero_iff two_ne_zero).mp hx0),
        sub_eq_zero.mp ((pow_eq_zero_iff two_ne_zero).mp hy0)⟩
    · rintro ⟨h1, h2⟩
      simp [h1, h2]

theorem claim_C1_witness :
    (circularMask 5 5 2 2 1).length = 5 ∧
    maskAt (circularMask 5 5 2 2 1) 2 3 = true := by
  have h := claim_C1 5 5 2 2 1 2 3 (by decide) (by decide)
  exact ⟨h.1, h.2.2.1.mpr (by decide)⟩

inductive MaskError where
  | ShapeMismatch
deriving DecidableEq

/-- Heights and per-row widths of a nested array. -/
def dimsOf {α : Type} (rows : List (List α)) : List Nat := rows.map List.length

/-- Modelled from the spec: the per-pixel rule of mask application (§4.2,
missing from the notebook): a pixel whose mask value is `false` is set to the
fill value zero on every channel, a pixel whose mask value is `true` is
copied unchanged. -/
def maskPixel (p : List Nat) (b : Bool) : List Nat :=
  if b then p else List.replicate p.length 0

def maskRow (irow : List (List Nat)) (mrow : List Bool) : List (List Nat) :=
  List.zipWith maskPixel irow mrow

/-- Modelled from the spec: mask application (§4.2, missing from the
notebook, whose cell only says "Apply the mask to the RGB image, set all
values to black").  The shape check is performed eagerly before any pixel is
produced; the model is a pure function, so on the error path the input image
is returned to the caller untouched. -/
def applyMask (img : List (List (List Nat))) (mask : List (List Bool)) :
    Except MaskError (List (List (List Nat))) :=
  if dimsOf mask = dimsOf img then
    Except.ok (List.zipWith maskRow img mask)
  else Except.error MaskError.ShapeMismatch

theorem maskRow_at (irow : List (List Nat)) (mrow : List Bool) (x : Nat)
    (h : mrow.length = irow.length) :
    (maskRow irow mrow).getD x [] =
      if mrow.getD x false then irow.getD x []
      else List.replicate (irow.getD x []).length 0 := by
  induction irow generalizing mrow x with
  | nil =>
    have hm : mrow = [] := List.length_eq_zero.mp (by simpa using h)
    subst hm
    simp [maskRow]
  | cons p irest ih =>
    cases mrow with
    | nil => simp at h
    | cons b mrest =>
      cases x with
      | zero => simp [maskRow, maskPixel]
      | succ x =>
        simpa [maskRow] using ih mrest x (by simpa using h)

theorem maskGrid_at (img : List (List (List Nat))) (mask : List (List Bool))
    (h : dimsOf mask = dimsOf img) (y x : Nat) :
    ((List.zipWith maskRow img mask).getD y []).getD x [] =
      if maskAt mask y x then (img.getD y []).getD x []
      else List.replicate ((img.getD y []).getD x []).length 0 := by
  induction img generalizing mask y with
  | nil =>
    have hm : mask = [] := by
      have := h
      simp [dimsOf] at this
      exact this
    subst hm
    simp [maskAt]
  | cons irow irest ih =>
    cases mask with
    | nil => simp [dimsOf] at h
    | cons mrow mrest =>
      have hlen : mrow.length = irow.length ∧ dimsOf mrest = dimsOf irest := by
        simpa [dimsOf] using h
      cases y with
      | zero => simpa [maskAt] using maskRow_at irow mrow x hlen.1
      | succ y => simpa [maskAt] using ih mrest hlen.2 y

/-- C2: mask application returns a new image in which each pixel with mask
value `false` is set to the zero/black fill value on all channels and each
pixel with mask value `true` is copied unchanged; it fails with
`ShapeMismatch` if and only if the mask's dimensions differ from the image's,
the check being made before any output pixel exists (the model is pure, so
the input image is never modified). -/
theorem claim_C2 (img : List (List (List Nat))) (mask : List (List Bool)) :
    ((applyMask img mask).isOk ↔ dimsOf mask = dimsOf img) ∧
    (dimsOf mask ≠ dimsOf img →
      applyMask img mask = Except.error MaskError.ShapeMismatch) ∧
    (∀ out, applyMask img mask = Except.ok out → ∀ y x,
      (out.getD y []).getD x [] =
        if maskAt mask y x then (img.getD y []).getD x []
        else List.replicate ((img.getD y []).getD x []).length 0) := by
  refine ⟨?_, ?_, ?_⟩
  · unfold applyMask
    split <;> simp_all [Except.isOk, Except.toBool]
  · intro hne
    unfold applyMask
    split <;> simp_all
  · intro out hout y x
    unfold applyMask at hout
    split at hout
    · cases hout
      exact maskGrid_at img mask (by assumption) y x
    · cases hout

theorem claim_C2_witness :
    (applyMask [[[7, 7, 7], [3, 3, 3]]] [[true, false]]).isOk ∧
    applyMask [[[7, 7, 7], [3, 3, 3]]] [[true, false, true]] =
      Except.error MaskError.ShapeMismatch := by
  refine ⟨?_, ?_⟩
  · exact (claim_C2 [[[7, 7, 7], [3, 3, 3]]] [[true, false]]).1.mpr (by decide)
  · exact (claim_C2 [[[7, 7, 7], [3, 3, 3]]] [[true, false, true]]).2.1 (by decide)

/-- Dense image of the data model (§3): height × width × channels array of
8-bit unsigned samples, addressed as `px y x c`. -/
@[ext]
structure Image where
  height : Nat
  width : Nat
  channels : Nat
  px : Nat → Nat → Nat → Nat

def shape (img : Image) : Nat × Nat × Nat := (img.height, img.width, img.channels)

/-- Observable equality of images: equal dimensions and equal samples at
every in-range coordinate. -/
def sameImage (a b : Image) : Prop :=
  a.height = b.height ∧ a.width = b.width ∧ a.channels = b.channels ∧
  ∀ y x c, y < a.height → x < a.width → c < a.channels → a.px y x c = b.px y x c

/-- Index clamped into `[0, n − 1]`: the replicate border-extension policy. -/
def clampIdx (n : Nat) (t : Int) : Nat := (min (max t 0) ((n : Int) - 1)).toNat

/-- Border-extended sample of channel `c` at (possibly out-of-range)
coordinates `(y, x)`, using the replicate policy. -/
def sampleR (img : Image) (c : Nat) (y x : Int) : Nat :=
  img.px (clampIdx img.height y) (clampIdx img.width x) c

/-- Round a rational to the nearest integer, halves up. -/
def roundQ (q : ℚ) : Int := Int.floor (q + 1 / 2)

/-- Unnormalized Gaussian kernel weight at offset `(i, j)` of a window of
half-width `m`: the binomial-coefficient discretization of the Gaussian. -/
def binW (m i j : Nat) : ℚ := ((Nat.choose (2 * m) i * Nat.choose (2 * m) j : Nat) : ℚ)

/-- Modelled from the spec: Gaussian blur (§4.3, missing from the notebook,
whose denoising cell reads `dst = ...`): convolution with a normalized
Gaussian kernel, here the standard binomial discretization of window size
`2m + 1`, applied per channel with the replicate border policy, and the
weighted average rounded back to an 8-bit sample. -/
def gaussianBlur (m : Nat) (img : Image) : Image :=
  { img with px := fun y x c =>
      let n := 2 * m + 1
      let total : ℚ := ∑ i ∈ Finset.range n, ∑ j ∈ Finset.range n, binW m i j
      let s : ℚ := ∑ i ∈ Finset.range n, ∑ j ∈ Finset.range n,
        binW m i j * ((sampleR img c ((y : Int) + i - m) ((x : Int) + j - m) : Nat) : ℚ)
      (roundQ (s / total)).toNat }

/-- Neighborhood samples of channel `c` around `(y, x)`, window half-width
`m`, replicate border policy. -/
def neighborhood (m : Nat) (img : Image) (y x c : Nat) : List Nat :=
  (List.range (2 * m + 1)).flatMap fun (i : Nat) =>
    (List.range (2 * m + 1)).map fun (j : Nat) =>
      sampleR img c ((y : Int) + i - m) ((x : Int) + j - m)

def medianOf (l : List Nat) : Nat :=
  (List.insertionSort (· ≤ ·) l).getD (l.length / 2) 0

/-- Modelled from the spec: median blur (§4.3, missing from the notebook):
each sample is replaced by the median of its square neighborhood of odd size
`2m + 1`. -/
def medianBlur (m : Nat) (img : Image) : Image :=
  { img with px := fun y x c => medianOf (neighborhood m img y x c) }

/-- Monotone decreasing rational stand-in for the Gaussian falloff
`exp (−t)` used by the bilateral weights (the spec fixes no formula, only
the two-sigma weighting scheme). -/
def rexpQ (t : ℚ) : ℚ := 1 / (1 + t)

/-- Bilateral weight: spatial falloff times intensity-similarity falloff. -/
def bilateralW (sS sC d2 dv : ℚ) : ℚ :=
  rexpQ (d2 / (1 + sS ^ 2)) * rexpQ (dv ^ 2 / (1 + sC ^ 2))

/-- Modelled from the spec: bilateral filter (§4.3, missing from the
notebook): neighbor contributions are weighted by both spatial distance and
intensity similarity, governed by the two sigma parameters. -/
def bilateralFilter (m : Nat) (sS sC : ℚ) (img : Image) : Image :=
  { img with px := fun y x c =>
      let ctr : ℚ := ((img.px y x c : Nat) : ℚ)
      let pairs : List (ℚ × ℚ) := (List.range (2 * m + 1)).flatMap fun (i : Nat) =>
        (List.range (2 * m + 1)).map fun (j : Nat) =>
          let v : ℚ := ((sampleR img c ((y : Int) + i - m) ((x : Int) + j - m) : Nat) : ℚ)
          (bilateralW sS sC (((i : ℚ) - m) ^ 2 + ((j : ℚ) - m) ^ 2) (v - ctr), v)
      let tw : ℚ := (pairs.map Prod.fst).sum
      let ts : ℚ := (pairs.map fun p => p.1 * p.2).sum
      (roundQ (ts / tw)).toNat }

/-- The three interchangeable denoising strategies of §4.3. -/
inductive DenoiseFilter where
  | gaussian (m : Nat)
  | median (m : Nat)
  | bilateral (m : Nat) (sigmaS sigmaC : ℚ)

def applyDenoise : DenoiseFilter → Image → Image
  | DenoiseFilter.gaussian m, img => gaussianBlur m img
  | DenoiseFilter.median m, img => medianBlur m img
  | DenoiseFilter.bilateral m a b, img => bilateralFilter m a b img

/-- C3: every denoising filter — Gaussian blur, median blur, bilateral
filter — returns an image of exactly the input's shape (height, width and
channel count). -/
theorem claim_C3 (f : DenoiseFilter) (img : Image) :
    shape (applyDenoise f img) = shape img := by
  cases f <;> rfl

theorem roundQ_intCast (k : Int) : roundQ ((k : ℚ)) = k := by
  unfold roundQ
  rw [Int.floor_int_add]
  norm_num

theorem roundQ_natCast (v : Nat) : roundQ ((v : ℚ)) = (v : Int) := by
  rw [show ((v : ℚ)) = (((v : Int) : ℚ)) by push_cast; ring]
  exact roundQ_intCast (v : Int)

theorem binW_total (m : Nat) :
    (∑ i ∈ Finset.range (2 * m + 1), ∑ j ∈ Finset.range (2 * m + 1), binW m i j) =
      ((2 : ℚ) ^ (2 * m)) * ((2 : ℚ) ^ (2 * m)) := by
  have hN : (∑ i ∈ Finset.range (2 * m + 1), (2 * m).choose i) = 2 ^ (2 * m) :=
    Nat.sum_range_choose (2 * m)
  have hQ : (∑ i ∈ Finset.range (2 * m + 1), (((2 * m).choose i : ℚ))) =
      ((2 : ℚ) ^ (2 * m)) := by
    exact_mod_cast congrArg (fun t : Nat => (t : ℚ)) hN
  calc (∑ i ∈ Finset.range (2 * m + 1), ∑ j ∈ Finset.range (2 * m + 1), binW m i j)
      = (∑ i ∈ Finset.range (2 * m + 1), (((2 * m).choose i : ℚ))) *
        (∑ j ∈ Finset.range (2 * m + 1), (((2 * m).choose j : ℚ))) := by
        rw [Finset.sum_mul_sum]
        refine Finset.sum_congr rfl fun i _ => Finset.sum_congr rfl fun j _ => ?_
        unfold binW
        push_cast
        ring
    _ = ((2 : ℚ) ^ (2 * m)) * ((2 : ℚ) ^ (2 * m)) := by rw [hQ]

theorem binW_total_pos (m : Nat) :
    0 < (∑ i ∈ Finset.range (2 * m + 1), ∑ j ∈ Finset.range (2 * m + 1), binW m i j) := by
  rw [binW_total]
  positivity

/-- A constant image: every sample of every channel holds `v`. -/
def constImage (H W C v : Nat) : Image :=
  { height := H, width := W, channels := C, px := fun _ _ _ => v }

theorem gaussianBlur_const_px (m H W C v : Nat) (y x c : Nat) :
    (gaussianBlur m (constImage H W C v)).px y x c = v := by
  unfold gaussianBlur
  simp only [constImage, sampleR]
  have hs : (∑ i ∈ Finset.range (2 * m + 1), ∑ j ∈ Finset.range (2 * m + 1),
      binW m i j * ((v : Nat) : ℚ)) =
      (∑ i ∈ Finset.range (2 * m + 1), ∑ j ∈ Finset.range (2 * m + 1), binW m i j) *
        ((v : Nat) : ℚ) := by
    rw [Finset.sum_mul]
    refine Finset.sum_congr rfl fun i _ => ?_
    rw [Finset.sum_mul]
  rw [hs]
  rw [mul_div_cancel_left₀ _ (ne_of_gt (binW_total_pos m))]
  simp [roundQ_natCast]

/-- C9: a uniform image is a fixed point of Gaussian blur: the 4×4 image all
of whose samples equal 128, run through Gaussian blur with any kernel size
(window `2m + 1`) under the replicate border-extension policy, returns the
identical 4×4 all-128 image — indeed every output sample is 128. -/
theorem claim_C9 (m : Nat) :
    sameImage (gaussianBlur m (constImage 4 4 1 128)) (constImage 4 4 1 128) ∧
    ∀ y x c, (gaussianBlur m (constImage 4 4 1 128)).px y x c = 128 := by
  constructor
  · exact ⟨rfl, rfl, rfl, fun y x c _ _ _ => gaussianBlur_const_px m 4 4 1 128 y x c⟩
  · exact fun y x c => gaussianBlur_const_px m 4 4 1 128 y x c

/-- Saturating clamp of an integer intermediate into the valid 8-bit sample
range `[0, 255]`: values above 255 saturate to 255 and negative values to 0,
never wrapping modulo 256. -/
def clamp8 (v : Int) : Int := max 0 (min 255 v)

theorem clamp8_toNat_le (v : Int) : (clamp8 v).toNat ≤ 255 := by
  unfold clamp8
  omega

theorem clamp8_toNat_of_gt (v : Int) (h : 255 < v) : (clamp8 v).toNat = 255 := by
  unfold clamp8
  omega

theorem clamp8_toNat_of_neg (v : Int) (h : v < 0) : (clamp8 v).toNat = 0 := by
  unfold clamp8
  omega

theorem clamp8_toNat_natCast (v : Nat) (h : v ≤ 255) : (clamp8 (v : Int)).toNat = v := by
  unfold clamp8
  omega

/-- Modelled from the spec: unsharp masking (§4.4, missing from the
notebook, whose sharpening cell reads `img1_sharp = ...`): compute
blurred = Gaussian(image), detail = image − blurred, and
output = clamp(image + amount × detail) into the 8-bit sample range,
rounding the rational intermediate and saturating rather than wrapping. -/
def unsharp (amount : ℚ) (m : Nat) (img : Image) : Image :=
  let bl := gaussianBlur m img
  { img with px := fun y x c =>
      (clamp8 (roundQ ((img.px y x c : ℚ) +
        amount * ((img.px y x c : ℚ) - (bl.px y x c : ℚ))))).toNat }

/-- C4: for every image and every gain `amount ≥ 0`, unsharp masking
computes blurred = Gaussian(image), detail = image − blurred, and
output = clamp(image + amount × detail) into the valid 8-bit range, the
clamp saturating at 0 and 255 rather than wrapping modulo 256. -/
theorem claim_C4 (img : Image) (amount : ℚ) (m : Nat) (y x c : Nat)
    (_h : 0 ≤ amount) :
    shape (unsharp amount m img) = shape img ∧
    (unsharp amount m img).px y x c =
      (clamp8 (roundQ ((img.px y x c : ℚ) + amount *
        ((img.px y x c : ℚ) - ((gaussianBlur m img).px y x c : ℚ))))).toNat ∧
    (unsharp amount m img).px y x c ≤ 255 ∧
    (255 < roundQ ((img.px y x c : ℚ) + amount *
        ((img.px y x c : ℚ) - ((gaussianBlur m img).px y x c : ℚ))) →
      (unsharp amount m img).px y x c = 255) ∧
    (roundQ ((img.px y x c : ℚ) + amount *
        ((img.px y x c : ℚ) - ((gaussianBlur m img).px y x c : ℚ))) < 0 →
      (unsharp amount m img).px y x c = 0) := by
  refine ⟨rfl, rfl, ?_, ?_, ?_⟩
  · exact clamp8_toNat_le _
  · intro h
    exact clamp8_toNat_of_gt _ h
  · intro h
    exact clamp8_toNat_of_neg _ h

theorem claim_C4_witness :
    (0 : ℚ) ≤ 1 ∧ (unsharp 1 0 (constImage 1 1 1 10)).px 0 0 0 ≤ 255 :=
  ⟨by norm_num, (claim_C4 (constImage 1 1 1 10) 1 0 0 0 0 (by norm_num)).2.2.1⟩

/-- C5: unsharp masking with gain `amount = 0` returns the original image
unchanged, for any image whose in-range samples are valid 8-bit values. -/
theorem claim_C5 (img : Image) (m : Nat)
    (h8 : ∀ y x c, y < img.height → x < img.width → c < img.channels →
      img.px y x c ≤ 255) :
    sameImage (unsharp 0 m img) img := by
  refine ⟨rfl, rfl, rfl, ?_⟩
  intro y x c hy hx hc
  show (clamp8 (roundQ ((img.px y x c : ℚ) + 0 *
    ((img.px y x c : ℚ) - ((gaussianBlur m img).px y x c : ℚ))))).toNat = img.px y x c
  rw [zero_mul, add_zero, roundQ_natCast]
  exact clamp8_toNat_natCast _ (h8 y x c hy hx hc)

theorem claim_C5_witness :
    sameImage (unsharp 0 1 (constImage 2 2 3 200)) (constImage 2 2 3 200) :=
  claim_C5 (constImage 2 2 3 200) 1 (fun _ _ _ _ _ _ => by norm_num [constImage])

/-- The two 3×3 Laplacian kernel variants written in the notebook's
sharpening section: `[0 1 0; 1 -4 1; 0 1 0]` and
`[-1 -1 -1; -1 8 -1; -1 -1 -1]`. -/
def laplacian4 : List (List Int) := [[0, 1, 0], [1, -4, 1], [0, 1, 0]]

def laplacian8 : List (List Int) := [[-1, -1, -1], [-1, 8, -1], [-1, -1, -1]]

def kernelSum (k : List (List Int)) : Int := (k.map List.sum).sum

/-- Response of convolving a kernel against a flat (constant) region of
value `v`: every tap of the kernel reads the same sample `v`. -/
def flatResponse (k : List (List Int)) (v : Int) : Int :=
  (k.map fun row => (row.map fun w => w * v).sum).sum

/-- C6: the sum of the elements of the 3×3 Laplacian kernel is 0 for both
documented variants, the 4-neighbor form `[[0,1,0],[1,-4,1],[0,1,0]]` and
the 8-neighbor form `[[-1,-1,-1],[-1,8,-1],[-1,-1,-1]]`, so a flat
(constant) region maps to zero filter response. -/
theorem claim_C6 (v : Int) :
    kernelSum laplacian4 = 0 ∧ kernelSum laplacian8 = 0 ∧
    flatResponse laplacian4 v = 0 ∧ flatResponse laplacian8 v = 0 := by
  refine ⟨by decide, by decide, ?_, ?_⟩
  · simp [flatResponse, laplacian4]
    ring
  · simp [flatResponse, laplacian8]
    ring

/-- The color spaces enumerated by §4.5. -/
inductive ColorSpace where
  | RGB | BGR | HSV | Gray | YCrCb | Lab | Luv
deriving DecidableEq

inductive ConvError where
  | UnsupportedConversion
deriving DecidableEq

/-- Luma of an RGB triple, the standard 0.299/0.587/0.114 weighting in
fixed-point arithmetic, rounded half-up. -/
def lumaQ (r g b : Nat) : Nat := (299 * r + 587 * g + 114 * b + 500) / 1000

/-- Saturating cast of an integer intermediate to an 8-bit sample. -/
def sat8 (v : Int) : Nat := (clamp8 v).toNat

/-- Channel swap used by RGB↔BGR: output channel `c` reads input channel
`2 − c`. -/
def swapRB (p : Nat → Nat) (c : Nat) : Nat := p (2 - c)

def rgb2grayPx (p : Nat → Nat) (_ : Nat) : Nat := lumaQ (p 0) (p 1) (p 2)

def gray2rgbPx (p : Nat → Nat) (_ : Nat) : Nat := p 0

/-- Fixed-point RGB→HSV transform (hue in `[0, 180)`, 8-bit S and V). -/
def rgb2hsvPx (p : Nat → Nat) (c : Nat) : Nat :=
  let r : Int := p 0
  let g : Int := p 1
  let b : Int := p 2
  let v := max r (max g b)
  let mn := min r (min g b)
  let d := v - mn
  if c = 0 then
    (if d = 0 then 0
     else if v = r then (30 * (g - b) / d + 180) % 180
     else if v = g then 30 * (b - r) / d + 60
     else 30 * (r - g) / d + 120).toNat
  else if c = 1 then (if v = 0 then 0 else 255 * d / v).toNat
  else v.toNat

/-- Fixed-point HSV→RGB transform by hue sector. -/
def hsv2rgbPx (p : Nat → Nat) (c : Nat) : Nat :=
  let h : Int := p 0
  let s : Int := p 1
  let v : Int := p 2
  let sector := h / 30
  let f := h % 30
  let q := v * (255 * 30 - s * f) / (255 * 30)
  let t := v * (255 * 30 - s * (30 - f)) / (255 * 30)
  let w := v * (255 - s) / 255
  let rgb : Int × Int × Int :=
    if sector = 0 then (v, t, w)
    else if sector = 1 then (q, v, w)
    else if sector = 2 then (w, v, t)
    else if sector = 3 then (w, q, v)
    else if sector = 4 then (t, w, v)
    else (v, w, q)
  sat8 (if c = 0 then rgb.1 else if c = 1 then rgb.2.1 else rgb.2.2)

/-- Fixed-point RGB→YCrCb transform. -/
def rgb2ycrcbPx (p : Nat → Nat) (c : Nat) : Nat :=
  let r : Int := p 0
  let g : Int := p 1
  let b : Int := p 2
  let yv := (299 * r + 587 * g + 114 * b + 500) / 1000
  if c = 0 then sat8 yv
  else if c = 1 then sat8 (713 * (r - yv) / 1000 + 128)
  else sat8 (564 * (b - yv) / 1000 + 128)

/-- Fixed-point YCrCb→RGB transform. -/
def ycrcb2rgbPx (p : Nat → Nat) (c : Nat) : Nat :=
  let yv : Int := p 0
  let cr : Int := p 1
  let cb : Int := p 2
  if c = 0 then sat8 (yv + 1403 * (cr - 128) / 1000)
  else if c = 1 then sat8 (yv - (714 * (cr - 128) + 344 * (cb - 128)) / 1000)
  else sat8 (yv + 1773 * (cb - 128) / 1000)

/-- Modelled from the spec: §4.5 lists RGB↔Lab among the supported
pixel-wise conversions but fixes no formula (the real conversion lives in
the external library); a fixed-point lightness/opponent-channel
approximation stands in for it. -/
def rgb2labPx (p : Nat → Nat) (c : Nat) : Nat :=
  let r : Int := p 0
  let g : Int := p 1
  let b : Int := p 2
  if c = 0 then sat8 ((299 * r + 587 * g + 114 * b + 500) / 1000)
  else if c = 1 then sat8 ((r - g) / 2 + 128)
  else sat8 ((g - b) / 2 + 128)

/-- Modelled from the spec: approximate inverse of `rgb2labPx`. -/
def lab2rgbPx (p : Nat → Nat) (c : Nat) : Nat :=
  let l : Int := p 0
  let a : Int := p 1
  let b : Int := p 2
  if c = 0 then sat8 (l + (a - 128))
  else if c = 1 then sat8 (l - (a - 128))
  else sat8 (l - (a - 128) - 2 * (b - 128))

/-- Modelled from the spec: §4.5 lists RGB↔Luv among the supported
pixel-wise conversions but fixes no formula; a fixed-point
luminance/chromaticity approximation stands in for it. -/
def rgb2luvPx (p : Nat → Nat) (c : Nat) : Nat :=
  let r : Int := p 0
  let g : Int := p 1
  let b : Int := p 2
  if c = 0 then sat8 ((299 * r + 587 * g + 114 * b + 500) / 1000)
  else if c = 1 then sat8 ((r - b) / 3 + 128)
  else if c = 2 then sat8 ((3 * g - r - b) / 4 + 128)
  else 0

/-- Modelled from the spec: approximate inverse of `rgb2luvPx`. -/
def luv2rgbPx (p : Nat → Nat) (c : Nat) : Nat :=
  let l : Int := p 0
  let u : Int := p 1
  let v : Int := p 2
  if c = 0 then sat8 (l + (u - 128))
  else if c = 1 then sat8 (l + (v - 128))
  else sat8 (l - (u - 128) - (v - 128))

/-- Apply a channel-wise (hence pixel-wise) transform `f` to every pixel,
producing an image with `nc` channels and unchanged height and width. -/
def pixelMap (f : (Nat → Nat) → Nat → Nat) (nc : Nat) (img : Image) : Image :=
  { height := img.height, width := img.width, channels := nc,
    px := fun y x c => f (fun ch => img.px y x ch) c }

/-- Modelled from the spec: the dispatch table of color-space conversion
(§4.5): the channel transform and output channel count of each enumerated
pair, and `none` for every unlisted pair. -/
def convSpec : ColorSpace → ColorSpace → Option (((Nat → Nat) → Nat → Nat) × Nat)
  | ColorSpace.RGB, ColorSpace.BGR => some (swapRB, 3)
  | ColorSpace.BGR, ColorSpace.RGB => some (swapRB, 3)
  | ColorSpace.RGB, ColorSpace.Gray => some (rgb2grayPx, 1)
  | ColorSpace.Gray, ColorSpace.RGB => some (gray2rgbPx, 3)
  | ColorSpace.RGB, ColorSpace.HSV => some (rgb2hsvPx, 3)
  | ColorSpace.HSV, ColorSpace.RGB => some (hsv2rgbPx, 3)
  | ColorSpace.RGB, ColorSpace.YCrCb => some (rgb2ycrcbPx, 3)
  | ColorSpace.YCrCb, ColorSpace.RGB => some (ycrcb2rgbPx, 3)
  | ColorSpace.RGB, ColorSpace.Lab => some (rgb2labPx, 3)
  | ColorSpace.Lab, ColorSpace.RGB => some (lab2rgbPx, 3)
  | ColorSpace.RGB, ColorSpace.Luv => some (rgb2luvPx, 3)
  | ColorSpace.Luv, ColorSpace.RGB => some (luv2rgbPx, 3)
  | _, _ => none

/-- Modelled from the spec: color-space conversion (§4.5): a supported pair
is converted by its deterministic pixel-wise transform; an unlisted pair
fails with `UnsupportedConversion`. -/
def cvtColor (s d : ColorSpace) (img : Image) : Except ConvError Image :=
  match convSpec s d with
  | some (f, nc) => Except.ok (pixelMap f nc img)
  | none => Except.error ConvError.UnsupportedConversion

/-- The pairs enumerated by the spec's sentence: RGB↔BGR, RGB↔HSV,
RGB↔grayscale, RGB↔YCrCb/Lab/Luv. -/
def supportedPairs : List (ColorSpace × ColorSpace) :=
  [(ColorSpace.RGB, ColorSpace.BGR), (ColorSpace.BGR, ColorSpace.RGB),
   (ColorSpace.RGB, ColorSpace.HSV), (ColorSpace.HSV, ColorSpace.RGB),
   (ColorSpace.RGB, ColorSpace.Gray), (ColorSpace.Gray, ColorSpace.RGB),
   (ColorSpace.RGB, ColorSpace.YCrCb), (ColorSpace.YCrCb, ColorSpace.RGB),
   (ColorSpace.RGB, ColorSpace.Lab), (ColorSpace.Lab, ColorSpace.RGB),
   (ColorSpace.RGB, ColorSpace.Luv), (ColorSpace.Luv, ColorSpace.RGB)]

theorem cvt_isOk (s d : ColorSpace) (img : Image) :
    (cvtColor s d img).isOk = (convSpec s d).isSome := by
  unfold cvtColor
  cases h : convSpec s d with
  | none => simp [Except.isOk, Except.toBool]
  | some p =>
    cases p with
    | mk f nc => simp [Except.isOk, Except.toBool]

theorem convSpec_isSome_iff (s d : ColorSpace) :
    (convSpec s d).isSome = true ↔ (s, d) ∈ supportedPairs := by
  cases s <;> cases d <;> decide

/-- C8: color-space conversion succeeds exactly for the enumerated pairs
(RGB↔BGR, RGB↔HSV, RGB↔grayscale, RGB↔YCrCb/Lab/Luv) as a deterministic
pixel-wise transform — the output at a pixel depends only on the input
samples at that same pixel and height and width are kept — and fails with
`UnsupportedConversion` for every pair outside that list. -/
theorem claim_C8 (s d : ColorSpace) (img : Image) :
    ((cvtColor s d img).isOk ↔ (s, d) ∈ supportedPairs) ∧
    ((s, d) ∉ supportedPairs →
      cvtColor s d img = Except.error ConvError.UnsupportedConversion) ∧
    (∀ out, cvtColor s d img = Except.ok out →
      out.height = img.height ∧ out.width = img.width ∧
      (∀ img2 out2, cvtColor s d img2 = Except.ok out2 → ∀ y x,
        (∀ ch, img2.px y x ch = img.px y x ch) →
        ∀ c, out2.px y x c = out.px y x c)) := by
  refine ⟨?_, ?_, ?_⟩
  · rw [show ((cvtColor s d img).isOk = true) = ((convSpec s d).isSome = true) from
      congrArg (· = true) (cvt_isOk s d img)]
    exact convSpec_isSome_iff s d
  · intro hns
    have hnone : convSpec s d = none := by
      cases h : convSpec s d with
      | none => rfl
      | some p =>
        exact absurd ((convSpec_isSome_iff s d).mp (by simp [h])) hns
    unfold cvtColor
    rw [hnone]
  · intro out hout
    unfold cvtColor at hout
    split at hout
    · rename_i f nc heq
      cases hout
      refine ⟨rfl, rfl, ?_⟩
      intro img2 out2 hout2 y x hpx c
      unfold cvtColor at hout2
      rw [heq] at hout2
      cases hout2
      show f (fun ch => img2.px y x ch) c = f (fun ch => img.px y x ch) c
      have : (fun ch => img2.px y x ch) = (fun ch => img.px y x ch) :=
        funext fun ch => hpx ch
      rw [this]
    · cases hout

theorem claim_C8_witness :
    (cvtColor ColorSpace.RGB ColorSpace.BGR (constImage 1 1 3 9)).isOk ∧
    cvtColor ColorSpace.HSV ColorSpace.Gray (constImage 1 1 3 9) =
      Except.error ConvError.UnsupportedConversion := by
  refine ⟨?_, ?_⟩
  · exact (claim_C8 ColorSpace.RGB ColorSpace.BGR (constImage 1 1 3 9)).1.mpr
      (by decide)
  · exact (claim_C8 ColorSpace.HSV ColorSpace.Gray (constImage 1 1 3 9)).2.1
      (by decide)

/-- Single red pixel: a 1×1 RGB image with samples (1, 0, 0). -/
def redDot : Image :=
  { height := 1, width := 1, channels := 3, px := fun _ _ c => if c = 0 then 1 else 0 }

/-- Single blue pixel: a 1×1 RGB image with samples (0, 0, 1). -/
def blueDot : Image :=
  { height := 1, width := 1, channels := 3, px := fun _ _ c => if c = 2 then 1 else 0 }

theorem lumaQ_diag (v : Nat) : lumaQ v v v = v := by
  unfold lumaQ
  omega

/-- C7: grayscale conversion is idempotent — converting an already-grayscale
image (a one-channel image sent back through gray→RGB) to grayscale again
yields the same image — and it is many-to-one, hence not invertible: two
observably different RGB images share the same grayscale image. -/
theorem claim_C7 :
    (∀ g rgb gray2, g.channels = 1 →
      cvtColor ColorSpace.Gray ColorSpace.RGB g = Except.ok rgb →
      cvtColor ColorSpace.RGB ColorSpace.Gray rgb = Except.ok gray2 →
      sameImage gray2 g) ∧
    (∃ ga gb, ¬ sameImage redDot blueDot ∧
      cvtColor ColorSpace.RGB ColorSpace.Gray redDot = Except.ok ga ∧
      cvtColor ColorSpace.RGB ColorSpace.Gray blueDot = Except.ok gb ∧
      sameImage ga gb) := by
  constructor
  · intro g rgb gray2 hch h1 h2
    unfold cvtColor convSpec at h1 h2
    cases h1
    cases h2
    refine ⟨rfl, rfl, hch.symm ▸ rfl, ?_⟩
    intro y x c _ _ hc
    show lumaQ (g.px y x 0) (g.px y x 0) (g.px y x 0) = g.px y x c
    rw [lumaQ_diag]
    have : c = 0 := by
      have := hc
      simp [pixelMap] at this
      omega
    rw [this]
  · refine ⟨pixelMap rgb2grayPx 1 redDot, pixelMap rgb2grayPx 1 blueDot, ?_, rfl, rfl, ?_⟩
    · intro hsame
      have := hsame.2.2.2 0 0 0 (by decide) (by decide) (by decide)
      simp [redDot, blueDot] at this
    · refine ⟨rfl, rfl, rfl, ?_⟩
      intro y x c _ _ _
      have h0 : lumaQ 1 0 0 = lumaQ 0 0 1 := by decide
      simpa [pixelMap, rgb2grayPx, redDot, blueDot] using h0

theorem claim_C7_witness :
    sameImage
      (pixelMap rgb2grayPx 1 (pixelMap gray2rgbPx 3 (constImage 1 1 1 5)))
      (constImage 1 1 1 5) :=
  claim_C7.1 (constImage 1 1 1 5) (pixelMap gray2rgbPx 3 (constImage 1 1 1 5))
    (pixelMap rgb2grayPx 1 (pixelMap gray2rgbPx 3 (constImage 1 1 1 5))) rfl rfl rfl

/-- C10: the BGR→RGB conversion used during preparation only reverses the
channel order at every pixel, preserves height, width and channel count,
and applying the same conversion twice to any 3-channel image returns the
original image. -/
theorem claim_C10 (img : Image) (h3 : img.channels = 3) :
    ∀ o1 o2, cvtColor ColorSpace.BGR ColorSpace.RGB img = Except.ok o1 →
      cvtColor ColorSpace.BGR ColorSpace.RGB o1 = Except.ok o2 →
      o1.height = img.height ∧ o1.width = img.width ∧ o1.channels = img.channels ∧
      (∀ y x c, c < 3 → o1.px y x c = img.px y x (2 - c)) ∧
      sameImage o2 img := by
  intro o1 o2 h1 h2
  unfold cvtColor convSpec at h1 h2
  cases h1
  cases h2
  refine ⟨rfl, rfl, h3.symm ▸ rfl, ?_, ?_⟩
  · intro y x c _
    rfl
  · refine ⟨rfl, rfl, h3.symm ▸ rfl, ?_⟩
    intro y x c _ _ hc
    have hc3 : c < 3 := by
      simpa [pixelMap] using hc
    show img.px y x (2 - (2 - c)) = img.px y x c
    have : 2 - (2 - c) = c := by omega
    rw [this]

theorem claim_C10_witness :
    sameImage (pixelMap swapRB 3 (pixelMap swapRB 3 redDot)) redDot :=
  (claim_C10 redDot rfl (pixelMap swapRB 3 redDot)
    (pixelMap swapRB 3 (pixelMap swapRB 3 redDot)) rfl rfl).2.2.2.2

end Preproc
